import Mathlib

/-!
Verification of the grz-check concurrent validation engine (grz-tools).

The Rust sources under packages/grz-check/src are shallowly embedded:
pure stream transforms become Lean functions over byte lists, the stateful
validators become explicit state-passing functions over decoded record
lists, and fallible operations return `Except String`.

Two abstraction choices, documented where they are used:
* the SHA-256 state of the external sha2 crate is modelled by the exact
  sequence of bytes absorbed by `update`, in order (the digest of the
  real hasher is a function of exactly this sequence, so any statement
  about which bytes the checksum covers is faithfully expressed);
* at the record level, the digest attached to a report is represented by
  the number of stream items the hasher had absorbed when it was
  finalized, which records whether the checksum covers the full stream
  or only a consumed prefix.

The repository holds two divergent snapshots of the FASTQ validator:
`fastq.rs`/`main.rs` carry a mean-read-length draft (a 3-argument
`process_paired_readers`, no `Auto` variant, a `total_read_length`
stats field), while `checker.rs` (including its test suite) calls a
4-argument `process_paired_readers` and uses `ReadLengthCheck::Auto`,
per-mate length checks and a `read_length` stats field. The per-record
validator that `checker.rs` compiles against is therefore not among the
given sources; definitions for it below are modelled from the spec and
say so in their doc comments. Everything else is translated directly
from the sources.
-/

namespace GrzCheck

/-- A byte of an on-disk file. -/
abbrev Byte := Nat

/-- Model of the sha2 crate's incremental SHA-256 state. The state is
abstracted as the exact sequence of bytes absorbed via `update`, in
order: the finalized digest of the real hasher is a function of exactly
this sequence. -/
structure Sha256 where
  fed : List Byte
deriving Repr, DecidableEq

/-- `Sha256::new()`. -/
def Sha256.new : Sha256 := ⟨[]⟩

/-- `Digest::update`: absorbs a chunk of bytes. -/
def Sha256.update (h : Sha256) (chunk : List Byte) : Sha256 :=
  ⟨h.fed ++ chunk⟩

/-- `SharedHashingReader` (sha256.rs): wraps an inner byte source and a
shared hasher. `inner` is the list of bytes not yet read from the
underlying file. -/
structure SharedHashingReader where
  inner : List Byte
  hasher : Sha256
deriving Repr, DecidableEq

/-- `SharedHashingReader::read` (sha256.rs lines 16-24): reads up to `n`
bytes from the inner source, and if `bytes_read > 0` feeds exactly the
bytes read to the hasher. -/
def SharedHashingReader.read (r : SharedHashingReader) (n : Nat) :
    List Byte × SharedHashingReader :=
  let chunk := r.inner.take n
  (chunk,
    ⟨r.inner.drop n,
     if 0 < chunk.length then r.hasher.update chunk else r.hasher⟩)

/-- `DualProgressReader` (progress.rs): wraps the hashing reader and two
progress counters (the indicatif progress bars are modelled by their
byte positions). -/
structure DualProgressReader where
  inner : SharedHashingReader
  specific_pb : Nat
  global_pb : Nat
deriving Repr, DecidableEq

/-- `DualProgressReader::read` (progress.rs lines 19-29): forwards bytes
unchanged and, if `bytes_read > 0`, increments both counters by the
number of bytes read. -/
def DualProgressReader.read (r : DualProgressReader) (n : Nat) :
    List Byte × DualProgressReader :=
  let (chunk, inner2) := r.inner.read n
  (chunk,
    ⟨inner2,
     if 0 < chunk.length then r.specific_pb + chunk.length else r.specific_pb,
     if 0 < chunk.length then r.global_pb + chunk.length else r.global_pb⟩)

/-- `setup_file_reader` (common.rs lines 20-48), state part: the file is
opened and wrapped as file source → `SharedHashingReader` →
`DualProgressReader`; optional decompression sits strictly downstream
of this state (see `pipelineOutput`). -/
def setup_file_reader (fileBytes : List Byte) : DualProgressReader :=
  ⟨⟨fileBytes, Sha256.new⟩, 0, 0⟩

/-- A downstream consumer (the format decoder, possibly behind the
niffler decompressor) pulls bytes through the reader with an arbitrary
schedule of read sizes. Returns all bytes pulled, in order, and the
final reader state. -/
def readChunks (r : DualProgressReader) :
    List Nat → List Byte × DualProgressReader
  | [] => ([], r)
  | n :: ns =>
    let (c, r2) := r.read n
    let (rest, r3) := readChunks r2 ns
    (c ++ rest, r3)

/-- The byte stream handed to the format decoder by `setup_file_reader`:
if `decompress` is set, the niffler codec (an arbitrary function on the
pulled bytes, since it is an external collaborator) transforms the
bytes after they have passed through the hasher; otherwise they are
passed through unchanged. The reader state (hasher and progress) is
unaffected by the transformation. -/
def pipelineOutput (fileBytes : List Byte) (decompress : Bool)
    (decomp : List Byte → List Byte) (sched : List Nat) :
    List Byte × DualProgressReader :=
  let (out, r2) := readChunks (setup_file_reader fileBytes) sched
  (if decompress then decomp out else out, r2)

/-- `Stats` (checker.rs lines 19-23): number of records and the
detected/required read length. -/
structure Stats where
  num_records : Nat
  read_length : Option Nat
deriving Repr, DecidableEq

/-- `CheckOutcome` (common.rs lines 11-16). -/
structure CheckOutcome where
  stats : Option Stats := none
  errors : List String := []
  warnings : List String := []
deriving Repr, DecidableEq

/-- `FileReport` (checker.rs lines 25-32). At the record level the
digest is abstracted to the number of stream items the hasher had
absorbed when finalized (`sha256 = some k` means a digest over the
first `k` items was attached; `none` means no checksum was reported). -/
structure FileReport where
  path : String
  stats : Option Stats
  sha256 : Option Nat
  errors : List String
  warnings : List String
deriving Repr, DecidableEq

/-- `FileReport::new` (checker.rs lines 35-48). -/
def FileReport.new (path : String) (stats : Option Stats)
    (errors : List String) (warnings : List String) : FileReport :=
  ⟨path, stats, none, errors, warnings⟩

/-- `FileReport::new_with_error` (checker.rs lines 50-58). -/
def FileReport.new_with_error (path : String) (error : String) : FileReport :=
  ⟨path, none, none, [error], []⟩

/-- `FileReport::with_sha256` (checker.rs lines 60-63). -/
def FileReport.with_sha256 (r : FileReport) (sha256 : Option Nat) : FileReport :=
  { r with sha256 := sha256 }

/-- `FileReport::is_ok` (checker.rs lines 65-67). -/
def FileReport.is_ok (r : FileReport) : Bool := r.errors.isEmpty

/-- The serialized `status` field (checker.rs `write_jsonl_report_entry`):
"OK" iff the report has no errors. -/
def statusOf (r : FileReport) : String := if r.is_ok then "OK" else "ERROR"

/-- `check_file` (common.rs lines 50-90). Parameters stand for the
run-time inputs of the Rust function: `setup` is the result of
`setup_file_reader` (an open failure carries its message), `logic` is
the closure's result together with `consumed`, the number of stream
items the hasher had absorbed when the closure returned, and
`hasherUnique` tells whether `Arc::try_unwrap(hasher)` succeeds (no
other holder of the hasher remains). On the `Ok` path the checksum is
attached unconditionally — the code only drops the reader, it does not
read it to end-of-stream. -/
def check_file (path : String) (setup : Except String Unit)
    (logic : Except String CheckOutcome) (consumed : Nat)
    (hasherUnique : Bool) : FileReport :=
  match setup with
  | .error e => FileReport.new_with_error path e
  | .ok _ =>
    match logic with
    | .error e => FileReport.new_with_error path e
    | .ok outcome =>
      if hasherUnique then
        (FileReport.new path outcome.stats outcome.errors
          outcome.warnings).with_sha256 (some consumed)
      else
        let final_report := FileReport.new path outcome.stats [] outcome.warnings
        { final_report with
          errors := final_report.errors
            ++ ["Failed to finalize checksum: hasher is still in use."] }

/-- `check_raw` (raw.rs lines 7-14): drains the stream without
interpreting content (`io::copy` to a sink); `ioError` models a read
failure while draining, `consumed` the number of bytes drained. -/
def check_raw (path : String) (fileBytes : List Byte)
    (ioError : Option String) (hasherUnique : Bool) : FileReport :=
  check_file path (.ok ())
    (match ioError with
     | some e => .error ("Failed to read file: " ++ e)
     | none => .ok {})
    fileBytes.length hasherUnique

/-- Modelled from the spec: the `ReadLengthCheck` job configuration of
the per-record FASTQ validator (`Fixed(n)`, `Auto`, `Skip`) that
checker.rs and its tests compile against. The fastq.rs under the given
sources is the superseded mean-read-length draft (no `Auto`, a single
shared check per pair) with an interface checker.rs does not call. -/
inductive ReadLengthCheck where
  | Fixed (n : Nat)
  | Auto
  | Skip
deriving Repr, DecidableEq

/-- Modelled from the spec: the state of the per-record FASTQ validator
(record counter, established/required read length, accumulated
file-level errors). A decoded record is represented by its sequence
length (the only field the validator inspects); a stream item is
`Except String Nat` mirroring `Result<fastq::Record, io::Error>`. -/
structure FastqCheckProcessor where
  length_check : ReadLengthCheck
  num_records : Nat
  read_length : Option Nat
  errors : List String
deriving Repr, DecidableEq

/-- Fresh processor for one file. -/
def FastqCheckProcessor.new (length_check : ReadLengthCheck) : FastqCheckProcessor :=
  ⟨length_check, 0, none, []⟩

/-- `FastqCheckProcessor::is_ok` (fastq.rs lines 49-51): no errors so
far and at least one record seen. -/
def FastqCheckProcessor.is_ok (p : FastqCheckProcessor) : Bool :=
  p.errors.isEmpty && p.num_records != 0

/-- The per-record length-consistency error. Modelled from the spec and
the test contract (checker.rs expects the text to contain "Found
inconsistent read length"). -/
def lengthError (i target got : Nat) : String :=
  s!"Found inconsistent read length in record #{i}: expected {target}, got {got}."

/-- The decode-failure message of fastq.rs `process_record` (lines
60-65): names the file id, the 1-based index of the failing record and
the underlying cause. -/
def decodeErrorMsg (file_id : String) (i : Nat) (e : String) : String :=
  s!"Failed to parse {file_id} record #{i}: {e}"

/-- One step of the validator. The record counter is incremented before
the decode result is examined, so a decode failure is reported with the
index of the failing record (count of previously parsed records + 1),
exactly as in fastq.rs `process_record` (lines 53-76). The length
logic is modelled from the spec: under `Skip` no check; under
`Fixed(n)` every record (the first included) must have length `n`;
under `Auto` the first record sets the baseline and every later record
must match it. A mismatch appends an error (the caller's loop then
stops because `is_ok` turns false). -/
def FastqCheckProcessor.process_record (p : FastqCheckProcessor)
    (record : Except String Nat) (file_id : String) :
    Except String FastqCheckProcessor :=
  let i := p.num_records + 1
  match record with
  | .error e => .error (decodeErrorMsg file_id i e)
  | .ok len =>
    match p.length_check with
    | .Skip => .ok { p with num_records := i }
    | .Fixed m =>
      if len = m then
        .ok { p with num_records := i, read_length := some m }
      else
        .ok { p with
              num_records := i
              read_length := some m
              errors := p.errors ++ [lengthError i m len] }
    | .Auto =>
      match p.read_length with
      | none => .ok { p with num_records := i, read_length := some len }
      | some m =>
        if len = m then
          .ok { p with num_records := i }
        else
          .ok { p with
                num_records := i
                errors := p.errors ++ [lengthError i m len] }

/-- `FastqCheckProcessor::finalize`, per-record variant: the empty-file
error (text as in fastq.rs lines 79-82) and the stats of checker.rs
(`num_records` plus the detected/required `read_length`). Stats are
present iff at least one record was counted. -/
def FastqCheckProcessor.finalize (p : FastqCheckProcessor) : CheckOutcome :=
  let errors :=
    if p.num_records == 0 && p.errors.isEmpty then
      p.errors ++ ["File is empty. Expected at least one record."]
    else p.errors
  { stats :=
      if p.num_records != 0 then some ⟨p.num_records, p.read_length⟩ else none
    errors := errors
    warnings := [] }

/-- The record loop of `check_single_fastq` (fastq.rs lines 126-131):
process a record, then stop if the processor is no longer ok. Returns
the result together with the number of stream items consumed. -/
def runRecords (p : FastqCheckProcessor) (file_id : String) :
    List (Except String Nat) → Except String FastqCheckProcessor × Nat
  | [] => (.ok p, 0)
  | r :: rs =>
    match p.process_record r file_id with
    | .error e => (.error e, 1)
    | .ok p2 =>
      if p2.is_ok then
        ((runRecords p2 file_id rs).1, (runRecords p2 file_id rs).2 + 1)
      else (.ok p2, 1)

/-- `check_single_fastq` (fastq.rs lines 116-135): runs the record loop
inside `check_file`. Also returns the number of stream items consumed
(for stating drain properties). -/
def check_single_fastq (path : String) (length_check : ReadLengthCheck)
    (records : List (Except String Nat)) (hasherUnique : Bool) :
    FileReport × Nat :=
  (check_file path (.ok ())
    ((runRecords (FastqCheckProcessor.new length_check) "record" records).1.map
      FastqCheckProcessor.finalize)
    (runRecords (FastqCheckProcessor.new length_check) "record" records).2
    hasherUnique,
   (runRecords (FastqCheckProcessor.new length_check) "record" records).2)

/-- Modelled from the spec: when one mate's stream exhausts first, the
validator drains the remaining side, applying its own length check to
each remaining record; a decode error still aborts immediately. -/
def drainSide (p : FastqCheckProcessor) (file_id : String) :
    List (Except String Nat) → Except String FastqCheckProcessor
  | [] => .ok p
  | r :: rs =>
    match p.process_record r file_id with
    | .error e => .error e
    | .ok p2 => drainSide p2 file_id rs

/-- Modelled from the spec: the lockstep walk of the paired validator.
Both sides consume one record per step; processing stops as soon as
either side's file-level validity fails; when one side exhausts, the
other side is drained and exactly one pair-level error is appended
(text as in fastq.rs lines 161-167), once, regardless of how many
extra records exist. -/
def pairLoop (p1 p2 : FastqCheckProcessor) :
    List (Except String Nat) → List (Except String Nat) →
    Except String (FastqCheckProcessor × FastqCheckProcessor × List String)
  | [], [] => .ok (p1, p2, [])
  | r1 :: rs1, [] =>
    match p1.process_record r1 "R1" with
    | .error e => .error e
    | .ok p1b =>
      match drainSide p1b "R1" rs1 with
      | .error e => .error e
      | .ok p1c =>
        .ok (p1c, p2, ["Mismatched read counts: R1 has more records than R2."])
  | [], r2 :: rs2 =>
    match p2.process_record r2 "R2" with
    | .error e => .error e
    | .ok p2b =>
      match drainSide p2b "R2" rs2 with
      | .error e => .error e
      | .ok p2c =>
        .ok (p1, p2c, ["Mismatched read counts: R2 has more records than R1."])
  | r1 :: rs1, r2 :: rs2 =>
    match p1.process_record r1 "R1" with
    | .error e => .error e
    | .ok p1b =>
      match p2.process_record r2 "R2" with
      | .error e => .error e
      | .ok p2b =>
        if p1b.is_ok && p2b.is_ok then pairLoop p1b p2b rs1 rs2
        else .ok (p1b, p2b, [])

/-- `process_paired_readers`, the 4-argument per-record variant called
by checker.rs (lines 179-184); the walk itself is modelled from the
spec (see `pairLoop`). -/
def process_paired_readers (records1 records2 : List (Except String Nat))
    (fq1_length_check fq2_length_check : ReadLengthCheck) :
    Except String (CheckOutcome × CheckOutcome × List String) :=
  match pairLoop (FastqCheckProcessor.new fq1_length_check)
      (FastqCheckProcessor.new fq2_length_check) records1 records2 with
  | .error e => .error e
  | .ok (p1, p2, pair_errors) => .ok (p1.finalize, p2.finalize, pair_errors)

/-- `PairReport` (checker.rs lines 70-81). -/
structure PairReport where
  fq1_report : FileReport
  fq2_report : FileReport
  pair_errors : List String
deriving Repr, DecidableEq

/-- `PairReport::is_ok`. -/
def PairReport.is_ok (r : PairReport) : Bool :=
  r.fq1_report.is_ok && r.fq2_report.is_ok && r.pair_errors.isEmpty

/-- The number of stream items the hasher of one mate had absorbed when
its reader was dropped: every consumed record went through
`process_record`, so it equals the processor's record count (recovered
from the finalized outcome's stats; zero records means an empty
digest). -/
def outcomeConsumed (o : CheckOutcome) : Nat :=
  match o.stats with
  | some s => s.num_records
  | none => 0

/-- `process_job`, `Job::PairedFastq` branch (checker.rs lines
164-293). `setup1`/`setup2` carry the opened record streams, or the
open-failure message from `setup_file_reader`. In the happy branch the
readers are dropped inside `process_paired_readers`, so
`Arc::try_unwrap` succeeds and a digest over the consumed items is
attached to each report; in every open-failure branch neither file is
scanned and no checksum is attached. -/
def process_paired_job (fq1_path fq2_path : String)
    (setup1 setup2 : Except String (List (Except String Nat)))
    (fq1_length_check fq2_length_check : ReadLengthCheck) : PairReport :=
  match setup1, setup2 with
  | .ok records1, .ok records2 =>
    (match process_paired_readers records1 records2
        fq1_length_check fq2_length_check with
     | .error e =>
       { fq1_report := FileReport.new fq1_path none [e] []
         fq2_report := FileReport.new fq2_path none [e] []
         pair_errors := ["Parsing error during paired fastq check."] }
     | .ok (fq1_outcome, fq2_outcome, pair_errors) =>
       { fq1_report := (FileReport.new fq1_path fq1_outcome.stats
           fq1_outcome.errors fq1_outcome.warnings).with_sha256
           (some (outcomeConsumed fq1_outcome))
         fq2_report := (FileReport.new fq2_path fq2_outcome.stats
           fq2_outcome.errors fq2_outcome.warnings).with_sha256
           (some (outcomeConsumed fq2_outcome))
         pair_errors := pair_errors })
  | .error e1, .ok _ =>
    { fq1_report := FileReport.new_with_error fq1_path e1
      fq2_report := FileReport.new fq2_path none
        ["R1 (\"" ++ fq1_path ++ "\") failed to parse; check aborted."] []
      pair_errors := [] }
  | .ok _, .error e2 =>
    { fq1_report := FileReport.new fq1_path none
        ["R2 (\"" ++ fq2_path ++ "\") failed to parse; check aborted."] []
      fq2_report := FileReport.new_with_error fq2_path e2
      pair_errors := [] }
  | .error e1, .error e2 =>
    { fq1_report := FileReport.new_with_error fq1_path e1
      fq2_report := FileReport.new_with_error fq2_path e2
      pair_errors := [] }

/-- A CIGAR operation kind (noodles collaborator); only hard clips are
distinguished by the validator. -/
inductive CigarOpKind where
  | HardClip
  | SoftClip
  | MatchOp
  | Insertion
  | Deletion
deriving Repr, DecidableEq

/-- The alignment flags inspected by check_bam. -/
structure BamFlags where
  secondary : Bool
deriving Repr, DecidableEq

/-- A decoded BAM record: name (may be absent), flags, and the CIGAR
operation list whose items are themselves fallible (bam.rs line 56
`op.is_ok_and(...)`). -/
structure BamRecord where
  name : Option String
  flags : BamFlags
  cigar : List (Except String CigarOpKind)
deriving Repr

/-- bam.rs lines 52-57: the record's op list contains a decodable
hard-clip operation. -/
def BamRecord.hasHardClip (r : BamRecord) : Bool :=
  r.cigar.any (fun op =>
    match op with
    | .ok k => k == .HardClip
    | .error _ => false)

/-- bam.rs line 47: `record.name().map(to_string).unwrap_or_default()`. -/
def bamRecordName (r : BamRecord) : String := r.name.getD ""

/-- The BAM header fields inspected for the privacy warning
(bam.rs lines 18-22). -/
structure BamHeader where
  reference_sequences : List String
  read_groups : List String
  programs : List String
  comments : List String
deriving Repr, DecidableEq

/-- bam.rs lines 18-22: any of the four header sections is nonempty. -/
def BamHeader.hasContent (h : BamHeader) : Bool :=
  !h.reference_sequences.isEmpty || !h.read_groups.isEmpty ||
    h.programs.length != 0 || !h.comments.isEmpty

/-- The mutable scan state of check_bam (bam.rs lines 29-33). -/
structure BamScanState where
  num_records : Nat
  secondary_alignment_count : Nat
  first_secondary_warning_details : Option (Nat × String)
  hard_clip_count : Nat
  first_hard_clip_warning_details : Option (Nat × String)
deriving Repr, DecidableEq

/-- One loop iteration of check_bam for a decoded record (bam.rs lines
40-65): count it; count secondary alignments recording the first
occurrence (1-based record number, name); independently count hard
clips among non-secondary records recording their first occurrence. -/
def bamScanStep (st : BamScanState) (record : BamRecord) : BamScanState :=
  let st1 := { st with num_records := st.num_records + 1 }
  let st2 :=
    if record.flags.secondary then
      { st1 with
        secondary_alignment_count := st1.secondary_alignment_count + 1
        first_secondary_warning_details :=
          match st1.first_secondary_warning_details with
          | none => some (st1.num_records, bamRecordName record)
          | some d => some d }
    else st1
  if !record.flags.secondary && record.hasHardClip then
    { st2 with
      hard_clip_count := st2.hard_clip_count + 1
      first_hard_clip_warning_details :=
        match st2.first_hard_clip_warning_details with
        | none => some (st2.num_records, bamRecordName record)
        | some d => some d }
  else st2

/-- The record loop of check_bam (bam.rs lines 35-66): a decode error
at iteration `i` aborts with an error naming record `i + 1` and the
cause. Returns the final state (or error) and the number of stream
items consumed. -/
def bamScan (st : BamScanState) :
    List (Except String BamRecord) → Except String BamScanState × Nat
  | [] => (.ok st, 0)
  | r :: rs =>
    match r with
    | .error e => (.error s!"Failed to parse record #{st.num_records + 1}: {e}", 1)
    | .ok record =>
      ((bamScan (bamScanStep st record) rs).1,
       (bamScan (bamScanStep st record) rs).2 + 1)

/-- A single-quote character as a one-character string (the bam.rs
warning texts wrap the read name in single quotes). -/
def q : String := (Char.ofNat 39).toString

/-- bam.rs lines 75-79 warning text. -/
def secondaryWarning (count rec_num : Nat) (read_name : String) : String :=
  s!"File contains {count} secondary alignment(s). First detected at record #{rec_num} ({q}{read_name}{q})."

/-- bam.rs lines 81-85 warning text. -/
def hardClipWarning (count rec_num : Nat) (read_name : String) : String :=
  s!"File contains {count} primary alignment(s) with hard-clipped bases. First detected at record #{rec_num} ({q}{read_name}{q})."

/-- `check_bam` (bam.rs lines 9-96): header read, privacy warning,
record scan, empty-file error (which discards the header warning, as in
the source's early return with `..Default::default()`), then at most
one secondary-alignment warning and at most one hard-clip warning. -/
def check_bam (path : String) (header : Except String BamHeader)
    (records : List (Except String BamRecord)) (hasherUnique : Bool) :
    FileReport × Nat :=
  match header with
  | .error e =>
    (check_file path (.ok ()) (.error s!"Failed to read BAM header: {e}") 0
      hasherUnique, 0)
  | .ok h =>
    let warnings0 : List String :=
      if h.hasContent then
        ["Detected a header in BAM file, ensure it contains no private information!"]
      else []
    match bamScan ⟨0, 0, none, 0, none⟩ records with
    | (.error e, k) => (check_file path (.ok ()) (.error e) k hasherUnique, k)
    | (.ok st, k) =>
      if st.num_records == 0 then
        (check_file path (.ok ())
          (.ok { errors := ["File is empty. Expected at least one record."] })
          k hasherUnique, k)
      else
        let warnings1 :=
          match st.first_secondary_warning_details with
          | some d => warnings0 ++
              [secondaryWarning st.secondary_alignment_count d.1 d.2]
          | none => warnings0
        let warnings2 :=
          match st.first_hard_clip_warning_details with
          | some d => warnings1 ++ [hardClipWarning st.hard_clip_count d.1 d.2]
          | none => warnings1
        (check_file path (.ok ())
          (.ok { stats := some ⟨st.num_records, none⟩, errors := [],
                 warnings := warnings2 })
          k hasherUnique, k)

/-- `CheckResult` (checker.rs lines 91-97). -/
inductive CheckResult where
  | PairedFastq (r : PairReport)
  | SingleFastq (r : FileReport)
  | Bam (r : FileReport)
  | Raw (r : FileReport)
deriving Repr, DecidableEq

/-- `CheckResult::is_error` (checker.rs lines 100-107). -/
def CheckResult.is_error : CheckResult → Bool
  | .PairedFastq r => !r.is_ok
  | .SingleFastq r => !r.is_ok
  | .Bam r => !r.is_ok
  | .Raw r => !r.is_ok

/-- `FastqReport` serialized line (checker.rs lines 519-529). -/
structure FastqReportLine where
  path : String
  status : String
  num_records : Option Nat
  read_length : Option Nat
  checksum : Option Nat
  errors : List String
  warnings : List String
deriving Repr, DecidableEq

/-- `BamReport` serialized line (checker.rs lines 531-540). -/
structure BamReportLine where
  path : String
  status : String
  num_records : Option Nat
  checksum : Option Nat
  errors : List String
  warnings : List String
deriving Repr, DecidableEq

/-- `RawReport` serialized line (checker.rs lines 542-550). -/
structure RawReportLine where
  path : String
  status : String
  checksum : Option Nat
  errors : List String
  warnings : List String
deriving Repr, DecidableEq

/-- `JsonReport` (checker.rs lines 552-558): one newline-delimited
record per physical file. -/
inductive JsonReport where
  | Fastq (r : FastqReportLine)
  | Bam (r : BamReportLine)
  | Raw (r : RawReportLine)
deriving Repr, DecidableEq

/-- `write_jsonl_report_entry` (checker.rs lines 560-631): a paired
result emits two FASTQ lines, each with its file's errors extended by
the pair-level errors (when any) and status "ERROR" unless the file is
ok and there is no pair error; every other result emits one line. -/
def write_jsonl_report_entry : CheckResult → List JsonReport
  | .PairedFastq pr =>
    let is_pair_error := !pr.pair_errors.isEmpty
    [pr.fq1_report, pr.fq2_report].map (fun fr =>
      .Fastq
        { path := fr.path
          status := if fr.is_ok && !is_pair_error then "OK" else "ERROR"
          num_records := fr.stats.map (fun s => s.num_records)
          read_length := fr.stats.bind (fun s => s.read_length)
          checksum := fr.sha256
          errors := fr.errors ++ (if is_pair_error then pr.pair_errors else [])
          warnings := fr.warnings })
  | .SingleFastq fr =>
    [.Fastq
      { path := fr.path
        status := statusOf fr
        num_records := fr.stats.map (fun s => s.num_records)
        read_length := fr.stats.bind (fun s => s.read_length)
        checksum := fr.sha256
        errors := fr.errors
        warnings := fr.warnings }]
  | .Bam fr =>
    [.Bam
      { path := fr.path
        status := statusOf fr
        num_records := fr.stats.map (fun s => s.num_records)
        checksum := fr.sha256
        errors := fr.errors
        warnings := fr.warnings }]
  | .Raw fr =>
    [.Raw
      { path := fr.path
        status := statusOf fr
        checksum := fr.sha256
        errors := fr.errors
        warnings := fr.warnings }]

/-- `process_jobs`, continue-on-error branch (checker.rs lines
334-378), absent cancellation (the shutdown flag stays false): each
job's result is written to the sink and the shared failed-job tally is
incremented for each erroneous result. The rayon pool is modelled by a
fold: the tally and the set of written lines do not depend on
completion order, which is the only nondeterminism of the pool. Takes
the per-job results (each job runs to completion and its result is a
pure function of its inputs, computed by `process_job`). -/
def process_jobs_continue (results : List CheckResult) : List JsonReport × Nat :=
  results.foldl
    (fun acc r =>
      (acc.1 ++ write_jsonl_report_entry r,
       acc.2 + if r.is_error then 1 else 0))
    ([], 0)

/-- Specification-side count: secondary alignments in a record list. -/
def countSecondary (rs : List BamRecord) : Nat :=
  rs.countP (fun r => r.flags.secondary)

/-- Specification-side count: hard clips among non-secondary records. -/
def countHardClip (rs : List BamRecord) : Nat :=
  rs.countP (fun r => !r.flags.secondary && r.hasHardClip)

/-- Specification-side first occurrence of a predicate in a record
list: 1-based record number (offset by `base`) and record name. -/
def firstWith (pred : BamRecord → Bool) (base : Nat) :
    List BamRecord → Option (Nat × String)
  | [] => none
  | r :: rs =>
    if pred r then some (base + 1, bamRecordName r)
    else firstWith pred (base + 1) rs

/-- Specification-side closed form of the warnings check_bam emits on a
decode-error-free, nonempty scan: the header privacy warning, then at
most one secondary-alignment warning (total count, first occurrence),
then at most one hard-clip warning (total count among non-secondary
records, first occurrence). -/
def bamExpectedWarnings (h : BamHeader) (rs : List BamRecord) : List String :=
  (if h.hasContent then
    ["Detected a header in BAM file, ensure it contains no private information!"]
   else [])
  ++ (match firstWith (fun r => r.flags.secondary) 0 rs with
      | some d => [secondaryWarning (countSecondary rs) d.1 d.2]
      | none => [])
  ++ (match firstWith (fun r => !r.flags.secondary && r.hasHardClip) 0 rs with
      | some d => [hardClipWarning (countHardClip rs) d.1 d.2]
      | none => [])

theorem sharedRead_fst (r : SharedHashingReader) (n : Nat) :
    (r.read n).1 = r.inner.take n := rfl

theorem sharedRead_inner (r : SharedHashingReader) (n : Nat) :
    (r.read n).2.inner = r.inner.drop n := rfl

theorem sharedRead_fed (r : SharedHashingReader) (n : Nat) :
    (r.read n).2.hasher.fed = r.hasher.fed ++ r.inner.take n := by
  show (if 0 < (r.inner.take n).length then r.hasher.update (r.inner.take n)
      else r.hasher).fed = _
  by_cases h : 0 < (r.inner.take n).length
  · rw [if_pos h]; rfl
  · rw [if_neg h]
    have hnil : r.inner.take n = [] := by
      cases heq : r.inner.take n with
      | nil => rfl
      | cons a l => rw [heq] at h; simp at h
    rw [hnil, List.append_nil]

theorem dualRead_fst (r : DualProgressReader) (n : Nat) :
    (r.read n).1 = r.inner.inner.take n := rfl

theorem dualRead_snd_inner (r : DualProgressReader) (n : Nat) :
    (r.read n).2.inner = (r.inner.read n).2 := rfl

theorem readChunks_spec (sched : List Nat) (r : DualProgressReader) :
    (readChunks r sched).2.inner.hasher.fed
        = r.inner.hasher.fed ++ (readChunks r sched).1 ∧
      (readChunks r sched).1 ++ (readChunks r sched).2.inner.inner
        = r.inner.inner := by
  induction sched generalizing r with
  | nil => simp [readChunks]
  | cons n ns ih =>
    have hfst : (readChunks r (n :: ns)).1
        = (r.read n).1 ++ (readChunks (r.read n).2 ns).1 := rfl
    have hsnd : (readChunks r (n :: ns)).2 = (readChunks (r.read n).2 ns).2 := rfl
    obtain ⟨ih1, ih2⟩ := ih (r.read n).2
    refine ⟨?_, ?_⟩
    · rw [hsnd, hfst, ih1, dualRead_snd_inner,
        sharedRead_fed, dualRead_fst,
        List.append_assoc]
    · rw [hsnd, hfst, List.append_assoc, ih2,
        dualRead_snd_inner, sharedRead_inner,
        dualRead_fst, List.take_append_drop]

/-- C1. For every file whose byte stream is opened successfully and
fully drained, the finalized hasher has absorbed exactly the file's
on-disk bytes, each exactly once and in file order, before any
decompression: the pulled bytes pass through `SharedHashingReader`
below the (arbitrary) decompression transform, so the digest — the
lowercase-hex SHA-256 is a function of the absorbed byte sequence — is
that of the pre-decompression bytes, unaffected by `decompress` and by
the codec `decomp`. -/
theorem C1_checksum_covers_on_disk_bytes
    (fileBytes : List Byte) (decompress : Bool)
    (decomp : List Byte → List Byte) (sched : List Nat)
    (hdrained : (pipelineOutput fileBytes decompress decomp sched).2.inner.inner = []) :
    (pipelineOutput fileBytes decompress decomp sched).2.inner.hasher.fed
      = fileBytes := by
  obtain ⟨h1, h2⟩ := readChunks_spec sched (setup_file_reader fileBytes)
  have houtstate : (pipelineOutput fileBytes decompress decomp sched).2
      = (readChunks (setup_file_reader fileBytes) sched).2 := rfl
  rw [houtstate] at hdrained ⊢
  rw [h1]
  rw [hdrained, List.append_nil] at h2
  simpa [setup_file_reader, Sha256.new] using h2

/-- Witness for C1 at a concrete input: a three-byte file drained by the
schedule [2, 5] behind a decompressing consumer. -/
theorem C1_witness :
    (pipelineOutput [3, 1, 4] true List.reverse [2, 5]).2.inner.hasher.fed
      = [3, 1, 4] :=
  C1_checksum_covers_on_disk_bytes [3, 1, 4] true List.reverse [2, 5] rfl

theorem process_record_skip (nr : Nat) (rl : Option Nat) (err : List String)
    (len : Nat) (fid : String) :
    FastqCheckProcessor.process_record ⟨.Skip, nr, rl, err⟩ (.ok len) fid
      = .ok ⟨.Skip, nr + 1, rl, err⟩ := rfl

theorem process_record_auto_none (nr : Nat) (err : List String) (len : Nat)
    (fid : String) :
    FastqCheckProcessor.process_record ⟨.Auto, nr, none, err⟩ (.ok len) fid
      = .ok ⟨.Auto, nr + 1, some len, err⟩ := rfl

theorem process_record_err (p : FastqCheckProcessor) (e : String) (fid : String) :
    p.process_record (.error e) fid
      = .error (decodeErrorMsg fid (p.num_records + 1) e) := rfl

theorem process_record_locked (lc : ReadLengthCheck) (m nr len : Nat)
    (err : List String) (fid : String) (hlc : lc = .Fixed m ∨ lc = .Auto) :
    FastqCheckProcessor.process_record ⟨lc, nr, some m, err⟩ (.ok len) fid
      = .ok ⟨lc, nr + 1, some m,
          if len = m then err else err ++ [lengthError (nr + 1) m len]⟩ := by
  rcases hlc with h | h <;> subst h <;> by_cases he : len = m <;>
    simp [FastqCheckProcessor.process_record, he]

theorem process_record_ok_total (p : FastqCheckProcessor) (len : Nat)
    (fid : String) :
    ∃ p2, p.process_record (.ok len) fid = .ok p2
      ∧ p2.num_records = p.num_records + 1
      ∧ p2.length_check = p.length_check := by
  obtain ⟨lc, nr, rl, err⟩ := p
  cases lc with
  | Skip => exact ⟨_, rfl, rfl, rfl⟩
  | Fixed m =>
    by_cases hfx : len = m <;>
      simp [FastqCheckProcessor.process_record, hfx]
  | Auto =>
    cases rl with
    | none => exact ⟨_, rfl, rfl, rfl⟩
    | some m =>
      by_cases hfx : len = m <;>
        simp [FastqCheckProcessor.process_record, hfx]

theorem is_ok_of_no_errors (p : FastqCheckProcessor) (herr : p.errors = [])
    (hnum : p.num_records ≠ 0) : p.is_ok = true := by
  simp [FastqCheckProcessor.is_ok, herr, hnum]

theorem errors_of_not_ok (p : FastqCheckProcessor) (hnum : p.num_records ≠ 0)
    (h : p.is_ok = false) : p.errors ≠ [] := by
  intro habs
  rw [is_ok_of_no_errors p habs hnum] at h
  exact Bool.noConfusion h

theorem runRecords_nil (p : FastqCheckProcessor) (fid : String) :
    runRecords p fid [] = (.ok p, 0) := rfl

theorem runRecords_cons_ok (p q : FastqCheckProcessor) (fid : String)
    (r : Except String Nat) (rs : List (Except String Nat))
    (hpr : p.process_record r fid = .ok q) (hq : q.is_ok = true) :
    runRecords p fid (r :: rs)
      = ((runRecords q fid rs).1, (runRecords q fid rs).2 + 1) := by
  simp [runRecords, hpr, hq]

theorem runRecords_cons_break (p q : FastqCheckProcessor) (fid : String)
    (r : Except String Nat) (rs : List (Except String Nat))
    (hpr : p.process_record r fid = .ok q) (hq : q.is_ok = false) :
    runRecords p fid (r :: rs) = (.ok q, 1) := by
  simp [runRecords, hpr, hq]

theorem runRecords_cons_err (p : FastqCheckProcessor) (fid : String)
    (e : String) (rs : List (Except String Nat)) :
    runRecords p fid (.error e :: rs)
      = (.error (decodeErrorMsg fid (p.num_records + 1) e), 1) := by
  simp [runRecords, process_record_err]

theorem process_record_result_num (p q : FastqCheckProcessor)
    (r : Except String Nat) (fid : String)
    (h : p.process_record r fid = .ok q) :
    q.num_records = p.num_records + 1 ∧ q.length_check = p.length_check := by
  cases r with
  | error e =>
    rw [process_record_err] at h
    exact absurd h (by simp)
  | ok len =>
    obtain ⟨q2, hq2, hn, hlc⟩ := process_record_ok_total p len fid
    have heq : Except.ok (ε := String) q = .ok q2 := h.symm.trans hq2
    injection heq with heq2
    subst heq2
    exact ⟨hn, hlc⟩

theorem runRecords_num_consumed (fid : String) (xs : List (Except String Nat))
    (p p2 : FastqCheckProcessor) (k : Nat)
    (hrun : runRecords p fid xs = (.ok p2, k)) :
    p2.num_records = p.num_records + k := by
  induction xs generalizing p k with
  | nil =>
    rw [runRecords_nil] at hrun
    injection hrun with h1 h2
    injection h1 with h1
    subst h1
    omega
  | cons x xs ih =>
    cases hx : p.process_record x fid with
    | error e =>
      simp only [runRecords, hx] at hrun
      exact absurd hrun (by simp)
    | ok q =>
      obtain ⟨hqn, _⟩ := process_record_result_num p q x fid hx
      by_cases hok : q.is_ok = true
      · rw [runRecords_cons_ok p q fid x xs hx hok] at hrun
        rcases hrr : runRecords q fid xs with ⟨res, kk⟩
        rw [hrr] at hrun
        injection hrun with h1 h2
        subst h1
        have := ih q kk hrr
        omega
      · rw [runRecords_cons_break p q fid x xs hx
          (Bool.not_eq_true _ ▸ hok : q.is_ok = false)] at hrun
        injection hrun with h1 h2
        injection h1 with h1
        subst h1
        omega

theorem runRecords_skip (fid : String) (lens : List Nat) (nr : Nat)
    (rl : Option Nat) :
    runRecords ⟨.Skip, nr, rl, []⟩ fid (lens.map .ok)
      = (.ok ⟨.Skip, nr + lens.length, rl, []⟩, lens.length) := by
  induction lens generalizing nr with
  | nil => simp [runRecords]
  | cons l ls ih =>
    rw [List.map_cons,
      runRecords_cons_ok _ ⟨.Skip, nr + 1, rl, []⟩ fid _ _
        (process_record_skip nr rl [] l fid)
        (is_ok_of_no_errors _ rfl (Nat.succ_ne_zero nr)),
      ih (nr + 1),
      show nr + 1 + ls.length = nr + (ls.length + 1) from by omega]
    rfl

theorem runRecords_locked_pass (fid : String) (lens : List Nat)
    (lc : ReadLengthCheck) (m nr : Nat) (hlc : lc = .Fixed m ∨ lc = .Auto)
    (hall : ∀ l ∈ lens, l = m) :
    runRecords ⟨lc, nr, some m, []⟩ fid (lens.map .ok)
      = (.ok ⟨lc, nr + lens.length, some m, []⟩, lens.length) := by
  induction lens generalizing nr with
  | nil => simp [runRecords]
  | cons l ls ih =>
    have hl : l = m := hall l (List.mem_cons_self l ls)
    have hpr : FastqCheckProcessor.process_record ⟨lc, nr, some m, []⟩
        (.ok l) fid = .ok ⟨lc, nr + 1, some m, []⟩ := by
      rw [process_record_locked lc m nr l [] fid hlc, if_pos hl]
    rw [List.map_cons,
      runRecords_cons_ok _ ⟨lc, nr + 1, some m, []⟩ fid _ _ hpr
        (is_ok_of_no_errors _ rfl (Nat.succ_ne_zero nr)),
      ih (nr + 1) (fun x hx => hall x (List.mem_cons_of_mem l hx)),
      show nr + 1 + ls.length = nr + (ls.length + 1) from by omega]
    rfl

theorem runRecords_locked_fail (fid : String) (lens : List Nat)
    (lc : ReadLengthCheck) (m nr : Nat) (hlc : lc = .Fixed m ∨ lc = .Auto)
    (hbad : ¬ ∀ l ∈ lens, l = m) :
    ∃ p2 k, runRecords ⟨lc, nr, some m, []⟩ fid (lens.map .ok) = (.ok p2, k)
      ∧ p2.errors ≠ [] := by
  induction lens generalizing nr with
  | nil => exact absurd (by simp) hbad
  | cons l ls ih =>
    by_cases hl : l = m
    · have hbad2 : ¬ ∀ x ∈ ls, x = m := by
        intro hall
        refine hbad ?_
        intro x hx
        rcases List.mem_cons.mp hx with h | h
        · rw [h, hl]
        · exact hall x h
      obtain ⟨p2, k, hrun, herr⟩ := ih (nr + 1) hbad2
      refine ⟨p2, k + 1, ?_, herr⟩
      have hpr : FastqCheckProcessor.process_record ⟨lc, nr, some m, []⟩
          (.ok l) fid = .ok ⟨lc, nr + 1, some m, []⟩ := by
        rw [process_record_locked lc m nr l [] fid hlc, if_pos hl]
      rw [List.map_cons,
        runRecords_cons_ok _ ⟨lc, nr + 1, some m, []⟩ fid _ _ hpr
          (is_ok_of_no_errors _ rfl (Nat.succ_ne_zero nr)),
        hrun]
    · have hpr : FastqCheckProcessor.process_record ⟨lc, nr, some m, []⟩
          (.ok l) fid
          = .ok ⟨lc, nr + 1, some m, [] ++ [lengthError (nr + 1) m l]⟩ := by
        rw [process_record_locked lc m nr l [] fid hlc, if_neg hl]
      refine ⟨⟨lc, nr + 1, some m, [] ++ [lengthError (nr + 1) m l]⟩, 1, ?_, by simp⟩
      rw [List.map_cons,
        runRecords_cons_break _ _ fid _ _ hpr
          (by simp [FastqCheckProcessor.is_ok])]

theorem check_single_fastq_eq (path : String) (lc : ReadLengthCheck)
    (records : List (Except String Nat)) (p : FastqCheckProcessor) (k : Nat)
    (hrun : runRecords (FastqCheckProcessor.new lc) "record" records
      = (.ok p, k)) :
    check_single_fastq path lc records true
      = (⟨path,
          (if p.num_records != 0 then some ⟨p.num_records, p.read_length⟩
           else none),
          some k,
          (if p.num_records == 0 && p.errors.isEmpty then
            p.errors ++ ["File is empty. Expected at least one record."]
           else p.errors),
          []⟩, k) := by
  unfold check_single_fastq
  rw [hrun]
  simp [check_file, FastqCheckProcessor.finalize, Except.map, FileReport.new,
    FileReport.with_sha256]

theorem check_single_fastq_eq_pos (path : String) (lc : ReadLengthCheck)
    (records : List (Except String Nat)) (p : FastqCheckProcessor) (k : Nat)
    (hrun : runRecords (FastqCheckProcessor.new lc) "record" records
      = (.ok p, k)) (hnum : p.num_records ≠ 0) :
    check_single_fastq path lc records true
      = (⟨path, some ⟨p.num_records, p.read_length⟩, some k, p.errors, []⟩, k) := by
  rw [check_single_fastq_eq path lc records p k hrun]
  have h1 : (p.num_records != 0) = true := by simp [hnum]
  have h2 : (p.num_records == 0) = false := by simp [hnum]
  rw [h1, h2]
  simp

theorem check_single_fastq_eq_error (path : String) (lc : ReadLengthCheck)
    (records : List (Except String Nat)) (e : String) (k : Nat)
    (hrun : runRecords (FastqCheckProcessor.new lc) "record" records
      = (.error e, k)) :
    check_single_fastq path lc records true
      = (FileReport.new_with_error path e, k) := by
  unfold check_single_fastq
  rw [hrun]
  rfl

theorem isEmpty_false_of_ne_nil {α : Type} (l : List α) (h : l ≠ []) :
    l.isEmpty = false := by
  cases l with
  | nil => exact absurd rfl h
  | cons a as => rfl

/-- C2. Per-record read-length semantics of the single-FASTQ job on a
nonempty, decodable stream (records abstracted to their sequence
lengths): under `Auto` the check succeeds iff every record's length
equals the first record's; under `Fixed n` it succeeds iff every
record's length (the first included) equals `n`; under `Skip` no
length-consistency check is performed (the job always succeeds). -/
theorem C2_read_length_policy_per_record (path : String) (lens : List Nat)
    (n : Nat) (hne : lens ≠ []) :
    ((check_single_fastq path .Auto (lens.map .ok) true).1.is_ok = true
      ↔ ∀ l ∈ lens, l = lens.headI)
    ∧ ((check_single_fastq path (.Fixed n) (lens.map .ok) true).1.is_ok = true
      ↔ ∀ l ∈ lens, l = n)
    ∧ (check_single_fastq path .Skip (lens.map .ok) true).1.is_ok = true := by
  obtain ⟨l, ls, rfl⟩ : ∃ a as, lens = a :: as := by
    cases lens with
    | nil => exact absurd rfl hne
    | cons a as => exact ⟨a, as, rfl⟩
  have hauto1 : FastqCheckProcessor.process_record
      (FastqCheckProcessor.new .Auto) (.ok l) "record"
      = .ok ⟨.Auto, 0 + 1, some l, []⟩ := rfl
  refine ⟨?_, ?_, ?_⟩
  · -- Auto
    by_cases hall : ∀ x ∈ ls, x = l
    · have hrun : runRecords (FastqCheckProcessor.new .Auto) "record"
          ((l :: ls).map .ok)
          = (.ok ⟨.Auto, 0 + 1 + ls.length, some l, []⟩, ls.length + 1) := by
        rw [List.map_cons,
          runRecords_cons_ok _ ⟨.Auto, 0 + 1, some l, []⟩ "record" _ _ hauto1
            (is_ok_of_no_errors _ rfl (Nat.succ_ne_zero 0)),
          runRecords_locked_pass "record" ls .Auto l (0 + 1) (Or.inr rfl) hall]
      rw [check_single_fastq_eq_pos path .Auto _ _ _ hrun
        (by show 0 + 1 + ls.length ≠ 0; omega)]
      simp only [FileReport.is_ok, List.isEmpty_nil, true_iff]
      intro x hx
      rcases List.mem_cons.mp hx with h | h
      · simp [h]
      · simp [List.headI, hall x h]
    · obtain ⟨p2, k, hrun2, herr⟩ :=
        runRecords_locked_fail "record" ls .Auto l (0 + 1) (Or.inr rfl) hall
      have hrun : runRecords (FastqCheckProcessor.new .Auto) "record"
          ((l :: ls).map .ok) = (.ok p2, k + 1) := by
        rw [List.map_cons,
          runRecords_cons_ok _ ⟨.Auto, 0 + 1, some l, []⟩ "record" _ _ hauto1
            (is_ok_of_no_errors _ rfl (Nat.succ_ne_zero 0)),
          hrun2]
      rw [check_single_fastq_eq path .Auto _ _ _ hrun]
      have h2 : (p2.num_records == 0 && p2.errors.isEmpty) = false := by
        rw [isEmpty_false_of_ne_nil _ herr]
        simp
      simp only [FileReport.is_ok, h2, Bool.false_eq_true, if_false]
      rw [isEmpty_false_of_ne_nil _ herr]
      simp only [Bool.false_eq_true, false_iff]
      intro hallc
      refine hall ?_
      intro x hx
      rw [hallc x (List.mem_cons_of_mem l hx)]
      exact (hallc l (List.mem_cons_self l ls)).symm
  · -- Fixed n
    by_cases hl : l = n
    · have hfix1 : FastqCheckProcessor.process_record
          (FastqCheckProcessor.new (.Fixed n)) (.ok l) "record"
          = .ok ⟨.Fixed n, 0 + 1, some n, []⟩ := by
        show FastqCheckProcessor.process_record ⟨.Fixed n, 0, none, []⟩ _ _ = _
        simp [FastqCheckProcessor.process_record, hl]
      by_cases hall : ∀ x ∈ ls, x = n
      · have hrun : runRecords (FastqCheckProcessor.new (.Fixed n)) "record"
            ((l :: ls).map .ok)
            = (.ok ⟨.Fixed n, 0 + 1 + ls.length, some n, []⟩, ls.length + 1) := by
          rw [List.map_cons,
            runRecords_cons_ok _ ⟨.Fixed n, 0 + 1, some n, []⟩ "record" _ _ hfix1
              (is_ok_of_no_errors _ rfl (Nat.succ_ne_zero 0)),
            runRecords_locked_pass "record" ls (.Fixed n) n (0 + 1)
              (Or.inl rfl) hall]
        rw [check_single_fastq_eq_pos path (.Fixed n) _ _ _ hrun
          (by show 0 + 1 + ls.length ≠ 0; omega)]
        simp only [FileReport.is_ok, List.isEmpty_nil, true_iff]
        intro x hx
        rcases List.mem_cons.mp hx with h | h
        · rw [h, hl]
        · exact hall x h
      · obtain ⟨p2, k, hrun2, herr⟩ :=
          runRecords_locked_fail "record" ls (.Fixed n) n (0 + 1)
            (Or.inl rfl) hall
        have hrun : runRecords (FastqCheckProcessor.new (.Fixed n)) "record"
            ((l :: ls).map .ok) = (.ok p2, k + 1) := by
          rw [List.map_cons,
            runRecords_cons_ok _ ⟨.Fixed n, 0 + 1, some n, []⟩ "record" _ _ hfix1
              (is_ok_of_no_errors _ rfl (Nat.succ_ne_zero 0)),
            hrun2]
        rw [check_single_fastq_eq path (.Fixed n) _ _ _ hrun]
        have h2 : (p2.num_records == 0 && p2.errors.isEmpty) = false := by
          rw [isEmpty_false_of_ne_nil _ herr]
          simp
        simp only [FileReport.is_ok, h2, Bool.false_eq_true, if_false]
        rw [isEmpty_false_of_ne_nil _ herr]
        simp only [Bool.false_eq_true, false_iff]
        intro hallc
        exact hall (fun x hx => hallc x (List.mem_cons_of_mem l hx))
    · have hpr : FastqCheckProcessor.process_record
          (FastqCheckProcessor.new (.Fixed n)) (.ok l) "record"
          = .ok ⟨.Fixed n, 0 + 1, some n, [] ++ [lengthError (0 + 1) n l]⟩ := by
        show FastqCheckProcessor.process_record ⟨.Fixed n, 0, none, []⟩ _ _ = _
        simp [FastqCheckProcessor.process_record, hl]
      have hrun : runRecords (FastqCheckProcessor.new (.Fixed n)) "record"
          ((l :: ls).map .ok)
          = (.ok ⟨.Fixed n, 0 + 1, some n, [] ++ [lengthError (0 + 1) n l]⟩, 1) := by
        rw [List.map_cons,
          runRecords_cons_break _ _ "record" _ _ hpr
            (by simp [FastqCheckProcessor.is_ok])]
      rw [check_single_fastq_eq path (.Fixed n) _ _ _ hrun]
      have h2 : (((0 : Nat) + 1 == 0)
          && ([] ++ [lengthError (0 + 1) n l] : List String).isEmpty) = false := by
        simp
      simp only [FileReport.is_ok, h2, Bool.false_eq_true, if_false]
      have hne2 : ([] ++ [lengthError (0 + 1) n l]) ≠ ([] : List String) := by simp
      rw [isEmpty_false_of_ne_nil _ hne2]
      simp only [Bool.false_eq_true, false_iff]
      intro hallc
      exact hl (hallc l (List.mem_cons_self l ls))
  · -- Skip
    have hrun := runRecords_skip "record" (l :: ls) 0 none
    rw [check_single_fastq_eq_pos path .Skip _ _ _ hrun (by simp)]
    simp [FileReport.is_ok]

/-- Witness for C2 at concrete inputs (records of lengths [7, 7]). -/
theorem C2_witness :
    ((check_single_fastq "s.fastq.gz" .Auto [.ok 7, .ok 7] true).1.is_ok = true
      ↔ ∀ l ∈ [7, 7], l = [7, 7].headI)
    ∧ ((check_single_fastq "s.fastq.gz" (.Fixed 7)
        [.ok 7, .ok 7] true).1.is_ok = true ↔ ∀ l ∈ [7, 7], l = 7)
    ∧ (check_single_fastq "s.fastq.gz" .Skip [.ok 7, .ok 7] true).1.is_ok
      = true :=
  C2_read_length_policy_per_record "s.fastq.gz" [7, 7] 7 (by decide)

/-- C9. In check_file, when the validation logic returns an outcome but
`Arc::try_unwrap(hasher)` fails because another reference still exists,
the returned report keeps the outcome's stats and warnings, but its
errors are exactly the finalization-failure message: any file-level
errors in `outcome.errors` are discarded (common.rs line 81 passes
`vec![]` for the errors of the rebuilt report). -/
theorem C9_finalize_failure_discards_validation_errors
    (path : String) (outcome : CheckOutcome) (consumed : Nat) :
    check_file path (.ok ()) (.ok outcome) consumed false
      = ⟨path, outcome.stats, none,
         ["Failed to finalize checksum: hasher is still in use."],
         outcome.warnings⟩ := rfl

/-- C10. In a paired job where exactly one mate fails to open, the
other mate is never scanned (the result is a fixed value independent
of the universally quantified content `records` of the readable mate):
its report has status "ERROR", the single error saying the sibling
failed and the check was aborted, no stats, no checksum, and the
pair-level error list is empty. Both failure sides are covered. -/
theorem C10_sibling_open_failure_aborts_readable_mate
    (p1 p2 e : String) (records : List (Except String Nat))
    (lc1 lc2 : ReadLengthCheck) :
    (process_paired_job p1 p2 (.error e) (.ok records) lc1 lc2
      = { fq1_report := FileReport.new_with_error p1 e
          fq2_report := ⟨p2, none, none,
            ["R1 (\"" ++ p1 ++ "\") failed to parse; check aborted."], []⟩
          pair_errors := [] })
    ∧ statusOf (process_paired_job p1 p2 (.error e) (.ok records)
        lc1 lc2).fq2_report = "ERROR"
    ∧ (process_paired_job p1 p2 (.ok records) (.error e) lc1 lc2
      = { fq1_report := ⟨p1, none, none,
            ["R2 (\"" ++ p2 ++ "\") failed to parse; check aborted."], []⟩
          fq2_report := FileReport.new_with_error p2 e
          pair_errors := [] })
    ∧ statusOf (process_paired_job p1 p2 (.ok records) (.error e)
        lc1 lc2).fq1_report = "ERROR" :=
  ⟨rfl, rfl, rfl, rfl⟩

/-- C4, counterexample. The claim extends the zero-records-is-ERROR
rule to raw jobs, but a raw job decodes no records from any file and
check_raw reports "OK" whenever draining succeeds — here on a
zero-byte file, which certainly has zero decoded records. -/
theorem C4_counterexample_raw_job_reports_ok :
    statusOf (check_raw "data.bin" [] none true) = "OK"
    ∧ (check_raw "data.bin" [] none true).errors = [] := by
  refine ⟨rfl, rfl⟩

/-- C4, amended: for the record-bearing job kinds (single-read,
paired-read, aligned-container) a file from which zero records are
decoded yields a report with status "ERROR" and no stats; raw jobs
have no record notion and report "OK" on a successful drain. -/
theorem C4_zero_records_error_for_record_formats
    (path path1 path2 : String) (lc lc1 lc2 : ReadLengthCheck)
    (h : BamHeader) :
    (statusOf (check_single_fastq path lc [] true).1 = "ERROR"
      ∧ (check_single_fastq path lc [] true).1.stats = none)
    ∧ (statusOf (process_paired_job path1 path2 (.ok []) (.ok [])
          lc1 lc2).fq1_report = "ERROR"
      ∧ statusOf (process_paired_job path1 path2 (.ok []) (.ok [])
          lc1 lc2).fq2_report = "ERROR"
      ∧ (process_paired_job path1 path2 (.ok []) (.ok [])
          lc1 lc2).fq1_report.stats = none
      ∧ (process_paired_job path1 path2 (.ok []) (.ok [])
          lc1 lc2).fq2_report.stats = none)
    ∧ (statusOf (check_bam path (.ok h) [] true).1 = "ERROR"
      ∧ (check_bam path (.ok h) [] true).1.stats = none) := by
  refine ⟨⟨rfl, rfl⟩, ⟨rfl, rfl, rfl, rfl⟩, ⟨?_, ?_⟩⟩
  · simp [check_bam, bamScan, check_file, statusOf, FileReport.is_ok,
      FileReport.new, FileReport.with_sha256]
  · simp [check_bam, bamScan, check_file, FileReport.new,
      FileReport.with_sha256]

/-- C3, evaluation at the failing input. A single-FASTQ job under the
`Auto` policy over records of lengths 4, 3, 4: the length mismatch at
record #2 stops scanning with the third record never consumed
(2 of 3 stream items drained), yet the report still carries a checksum
— and that checksum covers only the 2 consumed items. check_file
(common.rs lines 72-89) only drops the reader before finalizing; it
never drains it to end-of-stream, contradicting the claimed invariant
and the source's own comment that the reader is fully consumed. -/
theorem C3_checksum_reported_for_undrained_stream :
    (check_single_fastq "reads.fastq.gz" .Auto [.ok 4, .ok 3, .ok 4] true).2 = 2
    ∧ ([(.ok 4 : Except String Nat), .ok 3, .ok 4].length = 3)
    ∧ (check_single_fastq "reads.fastq.gz" .Auto
        [.ok 4, .ok 3, .ok 4] true).1.sha256 = some 2
    ∧ (check_single_fastq "reads.fastq.gz" .Auto
        [.ok 4, .ok 3, .ok 4] true).1.errors
      = [lengthError 2 4 3] :=
  ⟨rfl, rfl, rfl, rfl⟩

theorem drainSide_map_ok (fid : String) (lens : List Nat)
    (p : FastqCheckProcessor) :
    ∃ p2, drainSide p fid (lens.map .ok) = .ok p2
      ∧ p2.num_records = p.num_records + lens.length := by
  induction lens generalizing p with
  | nil => exact ⟨p, rfl, by simp⟩
  | cons l ls ih =>
    obtain ⟨q, hq, hqn, _⟩ := process_record_ok_total p l fid
    obtain ⟨p2, h2, hn⟩ := ih q
    refine ⟨p2, ?_, by simp only [List.length_cons]; omega⟩
    simp only [List.map_cons, drainSide, hq, h2]

theorem pairLoop_left_exhaust (p1 p2 : FastqCheckProcessor) (pe : List String)
    (h1 : p1.errors = []) (h2 : p2.errors = []) :
    ∀ (lens2 lens1 : List Nat) (q1 q2 : FastqCheckProcessor),
      lens2.length < lens1.length →
      pairLoop q1 q2 (lens1.map .ok) (lens2.map .ok) = .ok (p1, p2, pe) →
      pe = ["Mismatched read counts: R1 has more records than R2."]
        ∧ p1.num_records = q1.num_records + lens1.length
        ∧ p2.num_records = q2.num_records + lens2.length := by
  intro lens2
  induction lens2 with
  | nil =>
    intro lens1 q1 q2 hlen hrun
    cases lens1 with
    | nil => exact absurd hlen (by simp)
    | cons l ls =>
      obtain ⟨qa, hqa, hqan, _⟩ := process_record_ok_total q1 l "R1"
      obtain ⟨qb, hqb, hqbn⟩ := drainSide_map_ok "R1" ls qa
      simp only [List.map_cons, List.map_nil, pairLoop, hqa, hqb] at hrun
      injection hrun with hrun
      injection hrun with ha hrun
      injection hrun with hb hc
      subst ha
      subst hb
      subst hc
      refine ⟨rfl, ?_, ?_⟩
      · simp only [List.length_cons]
        omega
      · simp only [List.length_nil]
        omega
  | cons l2 ls2 ih =>
    intro lens1 q1 q2 hlen hrun
    cases lens1 with
    | nil => exact absurd hlen (by simp)
    | cons l1 ls1 =>
      obtain ⟨qa, hqa, hqan, _⟩ := process_record_ok_total q1 l1 "R1"
      obtain ⟨qb, hqb, hqbn, _⟩ := process_record_ok_total q2 l2 "R2"
      simp only [List.map_cons, pairLoop, hqa, hqb] at hrun
      by_cases hcond : (qa.is_ok && qb.is_ok) = true
      · rw [if_pos hcond] at hrun
        have hlen2 : ls2.length < ls1.length := by
          simp only [List.length_cons] at hlen
          omega
        obtain ⟨hpe, hn1, hn2⟩ := ih ls1 qa qb hlen2 hrun
        refine ⟨hpe, ?_, ?_⟩ <;> simp only [List.length_cons] <;> omega
      · rw [if_neg hcond] at hrun
        injection hrun with hrun
        injection hrun with ha hrun
        injection hrun with hb hc
        have h1b : qa.errors = [] := by rw [ha]; exact h1
        have h2b : qb.errors = [] := by rw [hb]; exact h2
        have hor : qa.is_ok = false ∨ qb.is_ok = false := by
          cases hx : qa.is_ok <;> cases hy : qb.is_ok <;>
            simp [hx, hy] at hcond ⊢
        rcases hor with hf | hf
        · exact absurd h1b (errors_of_not_ok qa (by omega) hf)
        · exact absurd h2b (errors_of_not_ok qb (by omega) hf)

theorem pairLoop_right_exhaust (p1 p2 : FastqCheckProcessor) (pe : List String)
    (h1 : p1.errors = []) (h2 : p2.errors = []) :
    ∀ (lens1 lens2 : List Nat) (q1 q2 : FastqCheckProcessor),
      lens1.length < lens2.length →
      pairLoop q1 q2 (lens1.map .ok) (lens2.map .ok) = .ok (p1, p2, pe) →
      pe = ["Mismatched read counts: R2 has more records than R1."]
        ∧ p1.num_records = q1.num_records + lens1.length
        ∧ p2.num_records = q2.num_records + lens2.length := by
  intro lens1
  induction lens1 with
  | nil =>
    intro lens2 q1 q2 hlen hrun
    cases lens2 with
    | nil => exact absurd hlen (by simp)
    | cons l ls =>
      obtain ⟨qa, hqa, hqan, _⟩ := process_record_ok_total q2 l "R2"
      obtain ⟨qb, hqb, hqbn⟩ := drainSide_map_ok "R2" ls qa
      simp only [List.map_cons, List.map_nil, pairLoop, hqa, hqb] at hrun
      injection hrun with hrun
      injection hrun with ha hrun
      injection hrun with hb hc
      subst ha
      subst hb
      subst hc
      refine ⟨rfl, ?_, ?_⟩
      · simp only [List.length_nil]
        omega
      · simp only [List.length_cons]
        omega
  | cons l1 ls1 ih =>
    intro lens2 q1 q2 hlen hrun
    cases lens2 with
    | nil => exact absurd hlen (by simp)
    | cons l2 ls2 =>
      obtain ⟨qa, hqa, hqan, _⟩ := process_record_ok_total q1 l1 "R1"
      obtain ⟨qb, hqb, hqbn, _⟩ := process_record_ok_total q2 l2 "R2"
      simp only [List.map_cons, pairLoop, hqa, hqb] at hrun
      by_cases hcond : (qa.is_ok && qb.is_ok) = true
      · rw [if_pos hcond] at hrun
        have hlen2 : ls1.length < ls2.length := by
          simp only [List.length_cons] at hlen
          omega
        obtain ⟨hpe, hn1, hn2⟩ := ih ls2 qa qb hlen2 hrun
        refine ⟨hpe, ?_, ?_⟩ <;> simp only [List.length_cons] <;> omega
      · rw [if_neg hcond] at hrun
        injection hrun with hrun
        injection hrun with ha hrun
        injection hrun with hb hc
        have h1b : qa.errors = [] := by rw [ha]; exact h1
        have h2b : qb.errors = [] := by rw [hb]; exact h2
        have hor : qa.is_ok = false ∨ qb.is_ok = false := by
          cases hx : qa.is_ok <;> cases hy : qb.is_ok <;>
            simp [hx, hy] at hcond ⊢
        rcases hor with hf | hf
        · exact absurd h1b (errors_of_not_ok qa (by omega) hf)
        · exact absurd h2b (errors_of_not_ok qb (by omega) hf)

theorem process_paired_job_ok (path1 path2 : String)
    (lc1 lc2 : ReadLengthCheck) (records1 records2 : List (Except String Nat))
    (p1 p2 : FastqCheckProcessor) (pe : List String)
    (hrun : pairLoop (FastqCheckProcessor.new lc1) (FastqCheckProcessor.new lc2)
      records1 records2 = .ok (p1, p2, pe)) :
    process_paired_job path1 path2 (.ok records1) (.ok records2) lc1 lc2
      = { fq1_report := (FileReport.new path1 p1.finalize.stats
            p1.finalize.errors p1.finalize.warnings).with_sha256
            (some (outcomeConsumed p1.finalize))
          fq2_report := (FileReport.new path2 p2.finalize.stats
            p2.finalize.errors p2.finalize.warnings).with_sha256
            (some (outcomeConsumed p2.finalize))
          pair_errors := pe } := by
  simp only [process_paired_job, process_paired_readers, hrun]

theorem write_jsonl_paired_pair_error (pr : PairReport) (msg : String)
    (hpe : pr.pair_errors = [msg]) :
    (write_jsonl_report_entry (.PairedFastq pr)).length = 2
    ∧ ∀ line ∈ write_jsonl_report_entry (.PairedFastq pr),
        ∃ fl, line = .Fastq fl ∧ fl.status = "ERROR" ∧ msg ∈ fl.errors := by
  constructor
  · unfold write_jsonl_report_entry
    simp
  · intro line hline
    simp only [write_jsonl_report_entry, hpe] at hline
    simp only [List.isEmpty_cons, Bool.not_false, Bool.not_true, Bool.and_false,
      Bool.false_eq_true, if_false, List.map_cons, List.map_nil, List.mem_cons,
      List.not_mem_nil, or_false, if_true] at hline
    rcases hline with h | h <;>
      exact ⟨_, h, rfl, List.mem_append_right _ (by simp)⟩

/-- C5. (Per-record paired validator; the walk is modelled from the
spec, the report serialization is checker.rs.) For a paired job whose
mates are decodable and internally consistent but have different
record counts: the validator drains the longer side, applying its own
length check to every one of its records (its final record count
equals the full stream length), records exactly one pair-level error
naming the side with more records, and both serialized per-file report
records carry that identical pair-level error with status "ERROR". -/
theorem C5_pair_exhaustion_single_error (path1 path2 : String)
    (lc1 lc2 : ReadLengthCheck) (lens1 lens2 : List Nat)
    (p1 p2 : FastqCheckProcessor) (pe : List String)
    (hlen : lens1.length ≠ lens2.length)
    (hrun : pairLoop (FastqCheckProcessor.new lc1) (FastqCheckProcessor.new lc2)
      (lens1.map .ok) (lens2.map .ok) = .ok (p1, p2, pe))
    (h1 : p1.errors = []) (h2 : p2.errors = []) :
    pe = [if lens2.length < lens1.length then
        "Mismatched read counts: R1 has more records than R2."
      else "Mismatched read counts: R2 has more records than R1."]
    ∧ p1.num_records = lens1.length
    ∧ p2.num_records = lens2.length
    ∧ (write_jsonl_report_entry (.PairedFastq (process_paired_job path1 path2
        (.ok (lens1.map .ok)) (.ok (lens2.map .ok)) lc1 lc2))).length = 2
    ∧ ∀ line ∈ write_jsonl_report_entry (.PairedFastq (process_paired_job path1
        path2 (.ok (lens1.map .ok)) (.ok (lens2.map .ok)) lc1 lc2)),
      ∃ fl, line = .Fastq fl ∧ fl.status = "ERROR"
        ∧ (if lens2.length < lens1.length then
            "Mismatched read counts: R1 has more records than R2."
          else "Mismatched read counts: R2 has more records than R1.") ∈ fl.errors := by
  have hjob := process_paired_job_ok path1 path2 lc1 lc2
    (lens1.map .ok) (lens2.map .ok) p1 p2 pe hrun
  by_cases hdir : lens2.length < lens1.length
  · obtain ⟨hpe, hn1, hn2⟩ := pairLoop_left_exhaust p1 p2 pe h1 h2 lens2 lens1
      (FastqCheckProcessor.new lc1) (FastqCheckProcessor.new lc2) hdir hrun
    have hw := write_jsonl_paired_pair_error
      (process_paired_job path1 path2 (.ok (lens1.map .ok))
        (.ok (lens2.map .ok)) lc1 lc2)
      "Mismatched read counts: R1 has more records than R2."
      (by rw [hjob]; exact hpe)
    refine ⟨?_, ?_, ?_, hw.1, ?_⟩
    · rw [if_pos hdir]
      exact hpe
    · simpa [FastqCheckProcessor.new] using hn1
    · simpa [FastqCheckProcessor.new] using hn2
    · intro line hline
      obtain ⟨fl, hfl, hst, hmem⟩ := hw.2 line hline
      refine ⟨fl, hfl, hst, ?_⟩
      rw [if_pos hdir]
      exact hmem
  · have hdir2 : lens1.length < lens2.length := by omega
    obtain ⟨hpe, hn1, hn2⟩ := pairLoop_right_exhaust p1 p2 pe h1 h2 lens1 lens2
      (FastqCheckProcessor.new lc1) (FastqCheckProcessor.new lc2) hdir2 hrun
    have hw := write_jsonl_paired_pair_error
      (process_paired_job path1 path2 (.ok (lens1.map .ok))
        (.ok (lens2.map .ok)) lc1 lc2)
      "Mismatched read counts: R2 has more records than R1."
      (by rw [hjob]; exact hpe)
    refine ⟨?_, ?_, ?_, hw.1, ?_⟩
    · rw [if_neg hdir]
      exact hpe
    · simpa [FastqCheckProcessor.new] using hn1
    · simpa [FastqCheckProcessor.new] using hn2
    · intro line hline
      obtain ⟨fl, hfl, hst, hmem⟩ := hw.2 line hline
      refine ⟨fl, hfl, hst, ?_⟩
      rw [if_neg hdir]
      exact hmem

/-- Witness for C5: R1 with two records of length 4, R2 with one
(the spec scenario). -/
theorem C5_witness :
    (["Mismatched read counts: R1 has more records than R2."]
      = [if ([4] : List Nat).length < ([4, 4] : List Nat).length then
          "Mismatched read counts: R1 has more records than R2."
        else "Mismatched read counts: R2 has more records than R1."])
    ∧ (⟨.Auto, 2, some 4, []⟩ : FastqCheckProcessor).num_records
        = ([4, 4] : List Nat).length
    ∧ (⟨.Auto, 1, some 4, []⟩ : FastqCheckProcessor).num_records
        = ([4] : List Nat).length
    ∧ (write_jsonl_report_entry (.PairedFastq (process_paired_job "r1.fastq.gz"
        "r2.fastq.gz" (.ok (([4, 4] : List Nat).map .ok))
        (.ok (([4] : List Nat).map .ok)) .Auto .Auto))).length = 2
    ∧ ∀ line ∈ write_jsonl_report_entry (.PairedFastq (process_paired_job
        "r1.fastq.gz" "r2.fastq.gz" (.ok (([4, 4] : List Nat).map .ok))
        (.ok (([4] : List Nat).map .ok)) .Auto .Auto)),
      ∃ fl, line = .Fastq fl ∧ fl.status = "ERROR"
        ∧ (if ([4] : List Nat).length < ([4, 4] : List Nat).length then
            "Mismatched read counts: R1 has more records than R2."
          else "Mismatched read counts: R2 has more records than R1.") ∈ fl.errors :=
  C5_pair_exhaustion_single_error "r1.fastq.gz" "r2.fastq.gz" .Auto .Auto
    [4, 4] [4] ⟨.Auto, 2, some 4, []⟩ ⟨.Auto, 1, some 4, []⟩
    ["Mismatched read counts: R1 has more records than R2."]
    (by decide) rfl rfl rfl

theorem runRecords_append (fid : String) (xs ys : List (Except String Nat))
    (p p2 : FastqCheckProcessor) (res : Except String FastqCheckProcessor)
    (k : Nat)
    (hx : runRecords p fid xs = (.ok p2, xs.length))
    (he : p2.errors = [])
    (hy : runRecords p2 fid ys = (res, k)) :
    runRecords p fid (xs ++ ys) = (res, xs.length + k) := by
  induction xs generalizing p with
  | nil =>
    rw [runRecords_nil] at hx
    injection hx with ha hb
    injection ha with ha
    subst ha
    simpa using hy
  | cons x xs ih =>
    cases hpr : p.process_record x fid with
    | error e =>
      simp only [runRecords, hpr] at hx
      exact absurd hx (by simp)
    | ok q =>
      by_cases hok : q.is_ok = true
      · rw [runRecords_cons_ok p q fid x xs hpr hok] at hx
        rcases hrr : runRecords q fid xs with ⟨res0, kk⟩
        rw [hrr] at hx
        injection hx with ha hb
        subst ha
        have hkk : kk = xs.length := by
          simp only [List.length_cons] at hb
          omega
        subst hkk
        have hstep := ih q hrr
        rw [show (x :: xs) ++ ys = x :: (xs ++ ys) from rfl,
          runRecords_cons_ok p q fid x (xs ++ ys) hpr hok, hstep,
          show (x :: xs).length + k = (xs.length + k) + 1 from by
            simp only [List.length_cons]
            omega]
      · have hq : q.is_ok = false := by
          cases hb : q.is_ok
          · rfl
          · exact absurd hb hok
        rw [runRecords_cons_break p q fid x xs hpr hq] at hx
        injection hx with ha hb
        injection ha with ha
        obtain ⟨hn, _⟩ := process_record_result_num p q x fid hpr
        have herrq : q.errors ≠ [] := errors_of_not_ok q (by omega) hq
        rw [ha] at herrq
        exact absurd he herrq

/-- C6, amended. For every single-FASTQ validation where the records
before position j are decodable (and leave the validator error-free)
and record j fails to decode: scanning stops at once (exactly j + 1
stream items are consumed; later records are never examined), and the
produced report is `new_with_error` with the message naming the
failing record's 1-based index (the j prior records survive only in
that index) and the underlying cause — with **no stats** (the prior
count is discarded from the outcome, which is what the original claim
got wrong) and no checksum. -/
theorem C6_decode_error_stops_scan (path : String) (lc : ReadLengthCheck)
    (okpart : List (Except String Nat)) (e : String)
    (rest : List (Except String Nat)) (p : FastqCheckProcessor)
    (hrun : runRecords (FastqCheckProcessor.new lc) "record" okpart
      = (.ok p, okpart.length))
    (hok : p.errors = []) :
    check_single_fastq path lc (okpart ++ .error e :: rest) true
      = (FileReport.new_with_error path
          (decodeErrorMsg "record" (okpart.length + 1) e), okpart.length + 1) := by
  have hnum := runRecords_num_consumed _ _ _ _ _ hrun
  have hnum2 : p.num_records = okpart.length := by
    simpa [FastqCheckProcessor.new] using hnum
  have hy := runRecords_cons_err p "record" e rest
  rw [hnum2] at hy
  have happ := runRecords_append "record" okpart (.error e :: rest)
    (FastqCheckProcessor.new lc) p _ _ hrun hok hy
  exact check_single_fastq_eq_error path lc _ _ _ happ

/-- Witness for C6 at a concrete input: one good record, then a decode
failure, then one further (never examined) record. -/
theorem C6_witness :
    check_single_fastq "g.fastq.gz" .Auto
        ([.ok 4] ++ .error "oops" :: [.ok 9]) true
      = (FileReport.new_with_error "g.fastq.gz"
          (decodeErrorMsg "record" (([.ok 4] : List (Except String Nat)).length + 1) "oops"),
         ([.ok 4] : List (Except String Nat)).length + 1) :=
  C6_decode_error_stops_scan "g.fastq.gz" .Auto [.ok 4] "oops" [.ok 9]
    ⟨.Auto, 1, some 4, []⟩ rfl rfl

/-- C6, counterexample to the claim as stated. At the concrete input
[ok-record of length 4, decode error "bad"], one record was counted
before the error, but the report's outcome carries no stats at all:
the prior count does not "remain counted in the outcome" (it survives
only inside the error message's record index #2). -/
theorem C6_counterexample_prior_count_discarded :
    (check_single_fastq "f.fastq.gz" .Auto [.ok 4, .error "bad"] true).1.stats
      = none
    ∧ (check_single_fastq "f.fastq.gz" .Auto [.ok 4, .error "bad"] true).1.errors
      = [decodeErrorMsg "record" 2 "bad"] := ⟨rfl, rfl⟩

theorem bamScan_map_ok (rs : List BamRecord) (st : BamScanState) :
    bamScan st (rs.map .ok)
      = (.ok ⟨st.num_records + rs.length,
          st.secondary_alignment_count + countSecondary rs,
          (match st.first_secondary_warning_details with
           | some d => some d
           | none => firstWith (fun r => r.flags.secondary) st.num_records rs),
          st.hard_clip_count + countHardClip rs,
          (match st.first_hard_clip_warning_details with
           | some d => some d
           | none => firstWith (fun r => !r.flags.secondary && r.hasHardClip)
               st.num_records rs)⟩,
         rs.length) := by
  induction rs generalizing st with
  | nil =>
    obtain ⟨n, sc, fs, hc, fh⟩ := st
    cases fs <;> cases fh <;>
      simp [bamScan, countSecondary, countHardClip, firstWith]
  | cons r rs ih =>
    have hstep : bamScan st ((r :: rs).map .ok)
        = ((bamScan (bamScanStep st r) (rs.map .ok)).1,
           (bamScan (bamScanStep st r) (rs.map .ok)).2 + 1) := rfl
    rw [hstep, ih (bamScanStep st r)]
    obtain ⟨n, sc, fs, hcc, fh⟩ := st
    simp only [Prod.mk.injEq, Except.ok.injEq, BamScanState.mk.injEq]
    by_cases hsec : r.flags.secondary = true <;>
      by_cases hhc : r.hasHardClip = true <;>
      cases fs <;> cases fh <;>
      simp [bamScanStep, bamRecordName, hsec, hhc, countSecondary,
        countHardClip, List.countP_cons, firstWith, List.length_cons] <;>
      omega

/-- C7. Closed form of the check_bam outcome on a decode-error-free,
nonempty scan: the warning list is exactly the (optional) header
privacy warning, followed by at most one secondary-alignment warning —
present iff a secondary record exists, stating the total count over the
full scan and the 1-based record number and name of the first
occurrence — followed by at most one hard-clip warning, counted only
among non-secondary records, with its own first occurrence. The two
detections are computed over the whole record list independently of
each other (each count/first-occurrence is a function of the full list
alone), so neither short-circuits the other and they may co-occur;
errors are empty and stats carry the total record count. -/
theorem C7_bam_warnings_closed_form (path : String) (h : BamHeader)
    (rs : List BamRecord) (hne : rs ≠ []) :
    (check_bam path (.ok h) (rs.map .ok) true).1.warnings
        = bamExpectedWarnings h rs
    ∧ (check_bam path (.ok h) (rs.map .ok) true).1.errors = []
    ∧ (check_bam path (.ok h) (rs.map .ok) true).1.stats
        = some ⟨rs.length, none⟩ := by
  have hscan : bamScan ⟨0, 0, none, 0, none⟩ (rs.map .ok)
      = (.ok ⟨rs.length, countSecondary rs,
          firstWith (fun r => r.flags.secondary) 0 rs,
          countHardClip rs,
          firstWith (fun r => !r.flags.secondary && r.hasHardClip) 0 rs⟩,
        rs.length) := by
    rw [bamScan_map_ok]
    simp
  have hlen : (rs.length == 0) = false := by
    cases rs with
    | nil => exact absurd rfl hne
    | cons a as => simp
  cases hfs : firstWith (fun r => r.flags.secondary) 0 rs with
  | none =>
    cases hfh : firstWith (fun r => !r.flags.secondary && r.hasHardClip) 0 rs with
    | none =>
      rw [hfs, hfh] at hscan
      simp [check_bam, hscan, hlen, check_file, FileReport.new,
        FileReport.with_sha256, bamExpectedWarnings, hfs, hfh]
    | some d2 =>
      rw [hfs, hfh] at hscan
      simp [check_bam, hscan, hlen, check_file, FileReport.new,
        FileReport.with_sha256, bamExpectedWarnings, hfs, hfh]
  | some d1 =>
    cases hfh : firstWith (fun r => !r.flags.secondary && r.hasHardClip) 0 rs with
    | none =>
      rw [hfs, hfh] at hscan
      simp [check_bam, hscan, hlen, check_file, FileReport.new,
        FileReport.with_sha256, bamExpectedWarnings, hfs, hfh]
    | some d2 =>
      rw [hfs, hfh] at hscan
      simp [check_bam, hscan, hlen, check_file, FileReport.new,
        FileReport.with_sha256, bamExpectedWarnings, hfs, hfh]

/-- Witness for C7: the mixed scenario of the checker.rs test suite —
four records alternating primary-with-hard-clip and secondary; both
warnings co-occur with counts 2 and 2 and first occurrences at records
1 and 2. -/
theorem C7_witness :
    (check_bam "mixed.bam" (.ok ⟨[], [], [], []⟩)
        (([⟨some "rec1_hardclip", ⟨false⟩, [.ok .HardClip]⟩,
           ⟨some "rec2_secondary", ⟨true⟩, []⟩,
           ⟨some "rec3_hardclip", ⟨false⟩, [.ok .HardClip]⟩,
           ⟨some "rec4_secondary", ⟨true⟩, []⟩] : List BamRecord).map .ok)
        true).1.warnings
      = bamExpectedWarnings ⟨[], [], [], []⟩
          [⟨some "rec1_hardclip", ⟨false⟩, [.ok .HardClip]⟩,
           ⟨some "rec2_secondary", ⟨true⟩, []⟩,
           ⟨some "rec3_hardclip", ⟨false⟩, [.ok .HardClip]⟩,
           ⟨some "rec4_secondary", ⟨true⟩, []⟩]
    ∧ (check_bam "mixed.bam" (.ok ⟨[], [], [], []⟩)
        (([⟨some "rec1_hardclip", ⟨false⟩, [.ok .HardClip]⟩,
           ⟨some "rec2_secondary", ⟨true⟩, []⟩,
           ⟨some "rec3_hardclip", ⟨false⟩, [.ok .HardClip]⟩,
           ⟨some "rec4_secondary", ⟨true⟩, []⟩] : List BamRecord).map .ok)
        true).1.errors = []
    ∧ (check_bam "mixed.bam" (.ok ⟨[], [], [], []⟩)
        (([⟨some "rec1_hardclip", ⟨false⟩, [.ok .HardClip]⟩,
           ⟨some "rec2_secondary", ⟨true⟩, []⟩,
           ⟨some "rec3_hardclip", ⟨false⟩, [.ok .HardClip]⟩,
           ⟨some "rec4_secondary", ⟨true⟩, []⟩] : List BamRecord).map .ok)
        true).1.stats
      = some ⟨([⟨some "rec1_hardclip", ⟨false⟩, [.ok .HardClip]⟩,
           ⟨some "rec2_secondary", ⟨true⟩, []⟩,
           ⟨some "rec3_hardclip", ⟨false⟩, [.ok .HardClip]⟩,
           ⟨some "rec4_secondary", ⟨true⟩, []⟩] : List BamRecord).length, none⟩ :=
  C7_bam_warnings_closed_form "mixed.bam" ⟨[], [], [], []⟩
    [⟨some "rec1_hardclip", ⟨false⟩, [.ok .HardClip]⟩,
     ⟨some "rec2_secondary", ⟨true⟩, []⟩,
     ⟨some "rec3_hardclip", ⟨false⟩, [.ok .HardClip]⟩,
     ⟨some "rec4_secondary", ⟨true⟩, []⟩]
    (by simp)

theorem process_jobs_continue_go (results : List CheckResult)
    (lines : List JsonReport) (tally : Nat) :
    results.foldl
      (fun acc r =>
        (acc.1 ++ write_jsonl_report_entry r,
         acc.2 + if r.is_error then 1 else 0)) (lines, tally)
      = (lines ++ (results.map write_jsonl_report_entry).flatten,
         tally + results.countP CheckResult.is_error) := by
  induction results generalizing lines tally with
  | nil => simp
  | cons r rs ih =>
    simp only [List.foldl_cons, ih, List.map_cons, List.flatten, List.countP_cons,
      Prod.mk.injEq]
    constructor
    · simp [List.append_assoc]
    · by_cases hr : r.is_error = true <;> simp [hr] <;> omega

theorem process_jobs_continue_spec (results : List CheckResult) :
    process_jobs_continue results
      = ((results.map write_jsonl_report_entry).flatten,
         results.countP CheckResult.is_error) := by
  unfold process_jobs_continue
  rw [process_jobs_continue_go]
  simp

/-- C8. Continue-on-error scheduling, absent cancellation: the fold
over all submitted job results (each job runs to completion and its
result is recorded — no result is skipped) writes every job's report
lines to the sink, and the final failed-job tally equals exactly the
number of erroneous results, not any single failure. Specialized to a
batch of three single-file jobs of which exactly one fails: three
report lines are written and the tally is exactly 1. -/
theorem C8_continue_on_error_exact_tally (results : List CheckResult)
    (f1 f2 f3 : FileReport)
    (h1 : f1.errors ≠ []) (h2 : f2.errors = []) (h3 : f3.errors = []) :
    (process_jobs_continue results).1
        = (results.map write_jsonl_report_entry).flatten
    ∧ (process_jobs_continue results).2
        = results.countP CheckResult.is_error
    ∧ (process_jobs_continue [.SingleFastq f1, .Bam f2, .Raw f3]).1.length = 3
    ∧ (process_jobs_continue [.SingleFastq f1, .Bam f2, .Raw f3]).2 = 1 := by
  refine ⟨by rw [process_jobs_continue_spec],
    by rw [process_jobs_continue_spec], ?_, ?_⟩
  · rw [process_jobs_continue_spec]
    simp [write_jsonl_report_entry]
  · rw [process_jobs_continue_spec]
    simp [CheckResult.is_error, FileReport.is_ok,
      isEmpty_false_of_ne_nil _ h1, h2, h3]

/-- Witness for C8: an empty extra batch plus the three-job scenario
with exactly one failing single-file job. -/
theorem C8_witness :
    (process_jobs_continue []).1
        = (([] : List CheckResult).map write_jsonl_report_entry).flatten
    ∧ (process_jobs_continue []).2
        = ([] : List CheckResult).countP CheckResult.is_error
    ∧ (process_jobs_continue
        [.SingleFastq (FileReport.new_with_error "a.fastq.gz" "boom"),
         .Bam (FileReport.new "b.bam" none [] []),
         .Raw (FileReport.new "c.bin" none [] [])]).1.length = 3
    ∧ (process_jobs_continue
        [.SingleFastq (FileReport.new_with_error "a.fastq.gz" "boom"),
         .Bam (FileReport.new "b.bam" none [] []),
         .Raw (FileReport.new "c.bin" none [] [])]).2 = 1 :=
  C8_continue_on_error_exact_tally []
    (FileReport.new_with_error "a.fastq.gz" "boom")
    (FileReport.new "b.bam" none [] [])
    (FileReport.new "c.bin" none [] [])
    (by simp [FileReport.new_with_error]) rfl rfl

end GrzCheck
